import Mathlib

/-!
Verification of the Athena_AI RAG-PDF ingestion and retrieval pipeline
(`upload_ingest_faiss.py`, `rag_chat.py`).

Texts are modelled as `List Char`.  The chunking generator
`chunks_from_pages` contains a `while` loop that need not terminate when
`overlap ≥ chunk_size`; it is therefore embedded with an explicit fuel
counter (`none` = the loop has not finished within `fuel` iterations),
together with a total wrapper taking a fuel amount that is proved
sufficient whenever `overlap < chunk_size`.
-/

set_option maxRecDepth 2000

deriving instance DecidableEq for Except

namespace AthenaAI

/-- The whitespace characters removed by Python's `str.strip()`
(ASCII subset; uploaded texts in this code base are ASCII). -/
def isSpace (c : Char) : Bool :=
  c = ' ' || c = '\t' || c = '\n' || c = '\r' || c = '\x0b' || c = '\x0c'

/-- Python `s.strip()`: remove leading and trailing whitespace. -/
def strip (s : List Char) : List Char :=
  ((s.dropWhile isSpace).reverse.dropWhile isSpace).reverse

/-- One emitted chunk: the dict `\x7b"text": ..., "pages": ...\x7d`
yielded by `chunks_from_pages`. -/
structure Chunk where
  text : List Char
  pages : List Nat
deriving DecidableEq, Repr

/-- `buffer_pages.add page_num` on the Python `set` (insertion order kept;
`sorted` is applied on emission). -/
def addPage (ps : List Nat) (p : Nat) : List Nat :=
  if p ∈ ps then ps else ps ++ [p]

/-- Python `sorted(buffer_pages)`. -/
def sortedPages (ps : List Nat) : List Nat :=
  List.insertionSort (· ≤ ·) ps

/-- The inner `while len(buffer) >= chunk_size` loop of `chunks_from_pages`.
Returns `(remaining fuel, emitted chunks, buffer, buffer_pages)`;
`none` when the loop has not exited within `fuel` iterations (for
`overlap ≥ chunk_size` the Python loop indeed never exits once entered). -/
def chunkLoopF (fuel chunk_size overlap : Nat) (buffer : List Char)
    (bp : List Nat) : Option (Nat × List Chunk × List Char × List Nat) :=
  if chunk_size ≤ buffer.length then
    match fuel with
    | 0 => none
    | f + 1 =>
      (chunkLoopF f chunk_size overlap
          (buffer.drop (chunk_size - overlap)) []).map fun r =>
        (r.1, Chunk.mk (strip (buffer.take chunk_size)) (sortedPages bp)
                :: r.2.1, r.2.2)
  else some (fuel, [], buffer, bp)

/-- The outer `for page_num, page_text in pages` loop of
`chunks_from_pages`.  Each page appends `"\n" + page_text` to the buffer,
records its page number, then runs the inner while loop. -/
def pageLoopF (chunk_size overlap : Nat) :
    Nat → List Char → List Nat → List (Nat × List Char) →
    Option (Nat × List Chunk × List Char × List Nat)
  | fuel, buffer, bp, [] => some (fuel, [], buffer, bp)
  | fuel, buffer, bp, (page_num, page_text) :: rest =>
    (chunkLoopF fuel chunk_size overlap (buffer ++ '\n' :: page_text)
        (addPage bp page_num)).bind fun r =>
      (pageLoopF chunk_size overlap r.1 r.2.2.1 r.2.2.2 rest).map fun s =>
        (s.1, r.2.1 ++ s.2.1, s.2.2)

/-- `chunks_from_pages(pages, chunk_size, overlap)` run with `fuel`
available iterations of the inner while loop; after the page loop, the
trailing `if buffer.strip(): yield ...` emits the remainder chunk. -/
def chunksFromPagesFuel (fuel : Nat) (pages : List (Nat × List Char))
    (chunk_size overlap : Nat) : Option (List Chunk) :=
  (pageLoopF chunk_size overlap fuel [] [] pages).map fun r =>
    if strip r.2.2.1 ≠ [] then
      r.2.1 ++ [Chunk.mk (strip r.2.2.1) (sortedPages r.2.2.2)]
    else r.2.1

/-- Total characters ever added to the buffer: each page contributes its
text plus the one-character `"\n"` separator.  An upper bound on the
number of inner-loop iterations (each removes at least one character when
`overlap < chunk_size`), hence sufficient fuel. -/
def totalLen (pages : List (Nat × List Char)) : Nat :=
  (pages.map (fun p => p.2.length + 1)).sum

/-- `chunks_from_pages` as the total function obtained at the provably
sufficient fuel `totalLen pages`; for `overlap < chunk_size` this is
exactly the Python generator's output (theorem
`chunksFromPagesFuel_totalLen_eq` below). -/
def chunks_from_pages (pages : List (Nat × List Char))
    (chunk_size : Nat := 1200) (overlap : Nat := 200) : List Chunk :=
  (chunksFromPagesFuel (totalLen pages) pages chunk_size overlap).getD []

/-! ### Termination and size bounds for the chunking loop -/

theorem strip_length_le (s : List Char) : (strip s).length ≤ s.length := by
  unfold strip
  calc ((s.dropWhile isSpace).reverse.dropWhile isSpace).reverse.length
      = ((s.dropWhile isSpace).reverse.dropWhile isSpace).length := by
        rw [List.length_reverse]
    _ ≤ (s.dropWhile isSpace).reverse.length :=
        (List.dropWhile_sublist _).length_le
    _ = (s.dropWhile isSpace).length := by rw [List.length_reverse]
    _ ≤ s.length := (List.dropWhile_sublist _).length_le

/-- When `overlap < chunk_size`, fuel at least `buffer.length` suffices for
the inner while loop; the final buffer is shorter than `chunk_size` and the
fuel spent is at most the shrinkage of the buffer. -/
theorem chunkLoopF_sufficient (overlap chunk_size : Nat)
    (hov : overlap < chunk_size) :
    ∀ (fuel : Nat) (buffer : List Char) (bp : List Nat),
      buffer.length ≤ fuel →
      ∃ f' cks buf' bp',
        chunkLoopF fuel chunk_size overlap buffer bp
          = some (f', cks, buf', bp') ∧
        buf'.length + (fuel - buffer.length) ≤ f' ∧
        buf'.length < chunk_size := by
  intro fuel
  induction fuel with
  | zero =>
    intro buffer bp hle
    have hb : buffer.length = 0 := Nat.le_zero.mp hle
    have hcond : ¬ chunk_size ≤ buffer.length := by omega
    exact ⟨0, [], buffer, bp, by unfold chunkLoopF; rw [if_neg hcond],
      by omega, by omega⟩
  | succ f ih =>
    intro buffer bp hle
    by_cases hcond : chunk_size ≤ buffer.length
    · have hdrop : (buffer.drop (chunk_size - overlap)).length
          = buffer.length - (chunk_size - overlap) := List.length_drop _ _
      obtain ⟨f', cks, buf', bp', hr, hfuel, hlen⟩ :=
        ih (buffer.drop (chunk_size - overlap)) [] (by omega)
      refine ⟨f', Chunk.mk (strip (buffer.take chunk_size)) (sortedPages bp)
          :: cks, buf', bp', ?_, by omega, hlen⟩
      unfold chunkLoopF
      rw [if_pos hcond]
      show (chunkLoopF f chunk_size overlap
          (buffer.drop (chunk_size - overlap)) []).map _ = _
      rw [hr, Option.map_some']
    · exact ⟨f + 1, [], buffer, bp, by unfold chunkLoopF; rw [if_neg hcond],
        by omega, by omega⟩

/-- Every chunk emitted by the inner loop has text of length at most
`chunk_size` (the text is `buffer[:chunk_size].strip()`). -/
theorem chunkLoopF_text_le (chunk_size overlap : Nat) :
    ∀ (fuel : Nat) (buffer : List Char) (bp : List Nat) f' cks buf' bp',
      chunkLoopF fuel chunk_size overlap buffer bp
        = some (f', cks, buf', bp') →
      ∀ c ∈ cks, c.text.length ≤ chunk_size := by
  intro fuel
  induction fuel with
  | zero =>
    intro buffer bp f' cks buf' bp' hr c hc
    unfold chunkLoopF at hr
    by_cases hcond : chunk_size ≤ buffer.length
    · rw [if_pos hcond] at hr
      exact absurd hr (by simp)
    · rw [if_neg hcond] at hr
      simp only [Option.some.injEq, Prod.mk.injEq] at hr
      obtain ⟨-, h2, -, -⟩ := hr
      subst h2
      simp at hc
  | succ f ih =>
    intro buffer bp f' cks buf' bp' hr c hc
    unfold chunkLoopF at hr
    by_cases hcond : chunk_size ≤ buffer.length
    · rw [if_pos hcond] at hr
      replace hr : (chunkLoopF f chunk_size overlap
          (buffer.drop (chunk_size - overlap)) []).map
            (fun r => (r.1,
              Chunk.mk (strip (buffer.take chunk_size)) (sortedPages bp)
                :: r.2.1, r.2.2))
          = some (f', cks, buf', bp') := hr
      rw [Option.map_eq_some'] at hr
      obtain ⟨⟨g, cks0, gbuf, gbp⟩, h1, h2⟩ := hr
      simp only [Prod.mk.injEq] at h2
      obtain ⟨-, h2, -, -⟩ := h2
      subst h2
      simp only [List.mem_cons] at hc
      rcases hc with hc | hc
      · subst hc
        calc (strip (buffer.take chunk_size)).length
            ≤ (buffer.take chunk_size).length := strip_length_le _
          _ ≤ chunk_size := by rw [List.length_take]; omega
      · exact ih _ _ _ _ _ _ h1 c hc
    · rw [if_neg hcond] at hr
      simp only [Option.some.injEq, Prod.mk.injEq] at hr
      obtain ⟨-, h2, -, -⟩ := hr
      subst h2
      simp at hc

/-- Fuel `buffer.length + totalLen pages` suffices for the whole page loop
when `overlap < chunk_size`; the final buffer stays shorter than
`chunk_size` provided the incoming one is. -/
theorem pageLoopF_sufficient (chunk_size overlap : Nat)
    (hov : overlap < chunk_size) :
    ∀ (pages : List (Nat × List Char)) (fuel : Nat) (buffer : List Char)
      (bp : List Nat),
      buffer.length + totalLen pages ≤ fuel →
      buffer.length < chunk_size →
      ∃ f' cks buf' bp',
        pageLoopF chunk_size overlap fuel buffer bp pages
          = some (f', cks, buf', bp') ∧
        buf'.length < chunk_size := by
  intro pages
  induction pages with
  | nil =>
    intro fuel buffer bp hfuel hlt
    exact ⟨fuel, [], buffer, bp, rfl, hlt⟩
  | cons page rest ih =>
    intro fuel buffer bp hfuel hlt
    obtain ⟨page_num, page_text⟩ := page
    have htot : totalLen ((page_num, page_text) :: rest)
        = page_text.length + 1 + totalLen rest := by
      unfold totalLen
      simp only [List.map_cons, List.sum_cons]
    have hlen1 : (buffer ++ '\n' :: page_text).length
        = buffer.length + page_text.length + 1 := by
      simp only [List.length_append, List.length_cons]
      omega
    obtain ⟨f1, cks1, buf1, bp1, hr, hrfuel, hrlt⟩ :=
      chunkLoopF_sufficient overlap chunk_size hov fuel
        (buffer ++ '\n' :: page_text) (addPage bp page_num) (by omega)
    obtain ⟨f2, cks2, buf2, bp2, hs, hslt⟩ := ih f1 buf1 bp1 (by omega) hrlt
    refine ⟨f2, cks1 ++ cks2, buf2, bp2, ?_, hslt⟩
    unfold pageLoopF
    rw [hr, Option.some_bind]
    show (pageLoopF chunk_size overlap f1 buf1 bp1 rest).map _ = _
    rw [hs, Option.map_some']

/-- All chunks emitted by the page loop have text length at most
`chunk_size`. -/
theorem pageLoopF_text_le (chunk_size overlap : Nat) :
    ∀ (pages : List (Nat × List Char)) (fuel : Nat) (buffer : List Char)
      (bp : List Nat) f' cks buf' bp',
      pageLoopF chunk_size overlap fuel buffer bp pages
        = some (f', cks, buf', bp') →
      ∀ c ∈ cks, c.text.length ≤ chunk_size := by
  intro pages
  induction pages with
  | nil =>
    intro fuel buffer bp f' cks buf' bp' hr c hc
    unfold pageLoopF at hr
    simp only [Option.some.injEq, Prod.mk.injEq] at hr
    obtain ⟨-, h2, -, -⟩ := hr
    subst h2
    simp at hc
  | cons page rest ih =>
    intro fuel buffer bp f' cks buf' bp' hr c hc
    obtain ⟨page_num, page_text⟩ := page
    unfold pageLoopF at hr
    rw [Option.bind_eq_some] at hr
    obtain ⟨⟨f1, cks1, buf1, bp1⟩, h1, h2⟩ := hr
    rw [Option.map_eq_some'] at h2
    obtain ⟨⟨f2, cks2, buf2, bp2⟩, h3, h4⟩ := h2
    simp only [Prod.mk.injEq] at h4
    obtain ⟨-, h4, -, -⟩ := h4
    subst h4
    simp only [List.mem_append] at hc
    rcases hc with hc | hc
    · exact chunkLoopF_text_le chunk_size overlap _ _ _ _ _ _ _ h1 c hc
    · exact ih _ _ _ _ _ _ _ h3 c hc

/-- With `overlap < chunk_size` the generator terminates within
`totalLen pages` inner-loop iterations, and the total wrapper
`chunks_from_pages` returns exactly its output. -/
theorem chunksFromPagesFuel_totalLen_eq (pages : List (Nat × List Char))
    (chunk_size overlap : Nat) (hov : overlap < chunk_size) :
    chunksFromPagesFuel (totalLen pages) pages chunk_size overlap
      = some (chunks_from_pages pages chunk_size overlap) := by
  obtain ⟨f', cks, buf', bp', hr, -⟩ :=
    pageLoopF_sufficient chunk_size overlap hov pages (totalLen pages) [] []
      (by simp) (by simpa using Nat.lt_of_le_of_lt (Nat.zero_le overlap) hov)
  unfold chunks_from_pages chunksFromPagesFuel
  rw [hr, Option.map_some', Option.getD_some]

/-- Every chunk of `chunks_from_pages` has text length at most
`chunk_size` when `overlap < chunk_size` (including the final remainder
chunk, whose buffer is already shorter than `chunk_size`). -/
theorem chunks_from_pages_text_le (pages : List (Nat × List Char))
    (chunk_size overlap : Nat) (hov : overlap < chunk_size) :
    ∀ c ∈ chunks_from_pages pages chunk_size overlap,
      c.text.length ≤ chunk_size := by
  intro c hc
  obtain ⟨f', cks, buf', bp', hr, hrlt⟩ :=
    pageLoopF_sufficient chunk_size overlap hov pages (totalLen pages) [] []
      (by simp) (by simpa using Nat.lt_of_le_of_lt (Nat.zero_le overlap) hov)
  unfold chunks_from_pages chunksFromPagesFuel at hc
  rw [hr, Option.map_some', Option.getD_some] at hc
  by_cases hb : strip buf' ≠ []
  · rw [if_pos hb, List.mem_append] at hc
    rcases hc with hc | hc
    · exact pageLoopF_text_le chunk_size overlap pages _ _ _ _ _ _ _ hr c hc
    · simp only [List.mem_singleton] at hc
      subst hc
      calc (strip buf').length ≤ buf'.length := strip_length_le _
        _ ≤ chunk_size := Nat.le_of_lt hrlt
  · rw [if_neg hb] at hc
    exact pageLoopF_text_le chunk_size overlap pages _ _ _ _ _ _ _ hr c hc

/-! ### Page-attribution invariants -/

theorem addPage_nodup (ps : List Nat) (p : Nat) (h : ps.Nodup) :
    (addPage ps p).Nodup := by
  unfold addPage
  by_cases hp : p ∈ ps
  · rw [if_pos hp]; exact h
  · rw [if_neg hp]
    refine h.append (List.nodup_singleton p) ?_
    intro x hx hx2
    simp only [List.mem_singleton] at hx2
    subst hx2
    exact hp hx

theorem sortedPages_sorted (ps : List Nat) :
    List.Sorted (· ≤ ·) (sortedPages ps) :=
  List.sorted_insertionSort _ ps

theorem sortedPages_nodup (ps : List Nat) (h : ps.Nodup) :
    (sortedPages ps).Nodup :=
  ((List.perm_insertionSort _ ps).nodup_iff).mpr h

theorem sortedPages_sorted_lt (ps : List Nat) (h : ps.Nodup) :
    List.Sorted (· < ·) (sortedPages ps) :=
  (sortedPages_sorted ps).lt_of_le (sortedPages_nodup ps h)

/-- Page lists emitted by the inner loop are strictly ascending, and the
page set it hands back is duplicate-free. -/
theorem chunkLoopF_pages_sorted (chunk_size overlap : Nat) :
    ∀ (fuel : Nat) (buffer : List Char) (bp : List Nat) f' cks buf' bp',
      bp.Nodup →
      chunkLoopF fuel chunk_size overlap buffer bp
        = some (f', cks, buf', bp') →
      (∀ c ∈ cks, List.Sorted (· < ·) c.pages) ∧ bp'.Nodup := by
  intro fuel
  induction fuel with
  | zero =>
    intro buffer bp f' cks buf' bp' hnd hr
    unfold chunkLoopF at hr
    by_cases hcond : chunk_size ≤ buffer.length
    · rw [if_pos hcond] at hr
      exact absurd hr (by simp)
    · rw [if_neg hcond] at hr
      simp only [Option.some.injEq, Prod.mk.injEq] at hr
      obtain ⟨-, h2, -, h4⟩ := hr
      subst h2; subst h4
      exact ⟨by simp, hnd⟩
  | succ f ih =>
    intro buffer bp f' cks buf' bp' hnd hr
    unfold chunkLoopF at hr
    by_cases hcond : chunk_size ≤ buffer.length
    · rw [if_pos hcond] at hr
      replace hr : (chunkLoopF f chunk_size overlap
          (buffer.drop (chunk_size - overlap)) []).map
            (fun r => (r.1,
              Chunk.mk (strip (buffer.take chunk_size)) (sortedPages bp)
                :: r.2.1, r.2.2))
          = some (f', cks, buf', bp') := hr
      rw [Option.map_eq_some'] at hr
      obtain ⟨⟨g, cks0, gbuf, gbp⟩, h1, h2⟩ := hr
      simp only [Prod.mk.injEq] at h2
      obtain ⟨-, h2, -, h4⟩ := h2
      subst h2; subst h4
      obtain ⟨ihs, ihnd⟩ := ih _ _ _ _ _ _ List.nodup_nil h1
      refine ⟨?_, ihnd⟩
      intro c hc
      simp only [List.mem_cons] at hc
      rcases hc with hc | hc
      · subst hc
        exact sortedPages_sorted_lt bp hnd
      · exact ihs c hc
    · rw [if_neg hcond] at hr
      simp only [Option.some.injEq, Prod.mk.injEq] at hr
      obtain ⟨-, h2, -, h4⟩ := hr
      subst h2; subst h4
      exact ⟨by simp, hnd⟩

/-- Page lists emitted anywhere in the page loop are strictly ascending. -/
theorem pageLoopF_pages_sorted (chunk_size overlap : Nat) :
    ∀ (pages : List (Nat × List Char)) (fuel : Nat) (buffer : List Char)
      (bp : List Nat) f' cks buf' bp',
      bp.Nodup →
      pageLoopF chunk_size overlap fuel buffer bp pages
        = some (f', cks, buf', bp') →
      (∀ c ∈ cks, List.Sorted (· < ·) c.pages) ∧ bp'.Nodup := by
  intro pages
  induction pages with
  | nil =>
    intro fuel buffer bp f' cks buf' bp' hnd hr
    unfold pageLoopF at hr
    simp only [Option.some.injEq, Prod.mk.injEq] at hr
    obtain ⟨-, h2, -, h4⟩ := hr
    subst h2; subst h4
    exact ⟨by simp, hnd⟩
  | cons page rest ih =>
    intro fuel buffer bp f' cks buf' bp' hnd hr
    obtain ⟨page_num, page_text⟩ := page
    unfold pageLoopF at hr
    rw [Option.bind_eq_some] at hr
    obtain ⟨⟨f1, cks1, buf1, bp1⟩, h1, h2⟩ := hr
    rw [Option.map_eq_some'] at h2
    obtain ⟨⟨f2, cks2, buf2, bp2⟩, h3, h4⟩ := h2
    simp only [Prod.mk.injEq] at h4
    obtain ⟨-, h4, -, h6⟩ := h4
    subst h4; subst h6
    obtain ⟨hs1, hnd1⟩ := chunkLoopF_pages_sorted chunk_size overlap _ _ _
      _ _ _ _ (addPage_nodup bp page_num hnd) h1
    obtain ⟨hs2, hnd2⟩ := ih _ _ _ _ _ _ _ hnd1 h3
    refine ⟨?_, hnd2⟩
    intro c hc
    simp only [List.mem_append] at hc
    rcases hc with hc | hc
    · exact hs1 c hc
    · exact hs2 c hc

/-- Any terminating run of the generator emits only strictly ascending
page lists (the final remainder chunk included). -/
theorem chunksFromPagesFuel_pages_sorted (fuel : Nat)
    (pages : List (Nat × List Char)) (chunk_size overlap : Nat)
    (result : List Chunk)
    (h : chunksFromPagesFuel fuel pages chunk_size overlap = some result) :
    ∀ c ∈ result, List.Sorted (· < ·) c.pages := by
  unfold chunksFromPagesFuel at h
  rw [Option.map_eq_some'] at h
  obtain ⟨⟨f', cks, buf', bp'⟩, h1, h2⟩ := h
  obtain ⟨hs, hnd⟩ := pageLoopF_pages_sorted chunk_size overlap pages _ _ _
    _ _ _ _ List.nodup_nil h1
  subst h2
  intro c hc
  by_cases hb : strip buf' ≠ []
  · rw [if_pos hb, List.mem_append] at hc
    rcases hc with hc | hc
    · exact hs c hc
    · simp only [List.mem_singleton] at hc
      subst hc
      exact sortedPages_sorted_lt bp' hnd
  · rw [if_neg hb] at hc
    exact hs c hc

/-! ### Blank-page behaviour and small-document behaviour -/

theorem totalLen_cons (page_num : Nat) (page_text : List Char)
    (rest : List (Nat × List Char)) :
    totalLen ((page_num, page_text) :: rest)
      = page_text.length + 1 + totalLen rest := by
  unfold totalLen
  simp only [List.map_cons, List.sum_cons]

theorem all_of_sublist {q : Char → Bool} {l₁ l₂ : List Char}
    (hs : l₁.Sublist l₂) (h : l₂.all q = true) : l₁.all q = true := by
  rw [List.all_eq_true] at *
  intro x hx
  exact h x (hs.subset hx)

theorem strip_eq_nil_iff (s : List Char) :
    strip s = [] ↔ s.all isSpace = true := by
  unfold strip
  constructor
  · intro h
    rw [List.reverse_eq_nil_iff, List.dropWhile_eq_nil_iff] at h
    have hall : ∀ x ∈ s.dropWhile isSpace, isSpace x = true := by
      intro x hx
      exact h x (List.mem_reverse.mpr hx)
    rw [List.all_eq_true]
    intro x hx
    rw [← List.takeWhile_append_dropWhile (p := isSpace) (l := s),
      List.mem_append] at hx
    rcases hx with hx | hx
    · exact List.mem_takeWhile_imp hx
    · exact hall x hx
  · intro h
    rw [List.all_eq_true] at h
    have hd : s.dropWhile isSpace = [] := List.dropWhile_eq_nil_iff.mpr h
    rw [hd]
    simp

/-- If the buffer is entirely whitespace, every chunk the inner loop emits
has empty (fully stripped) text, and the leftover buffer is again entirely
whitespace. -/
theorem chunkLoopF_blank (chunk_size overlap : Nat) :
    ∀ (fuel : Nat) (buffer : List Char) (bp : List Nat) f' cks buf' bp',
      buffer.all isSpace = true →
      chunkLoopF fuel chunk_size overlap buffer bp
        = some (f', cks, buf', bp') →
      (∀ c ∈ cks, c.text = []) ∧ buf'.all isSpace = true := by
  intro fuel
  induction fuel with
  | zero =>
    intro buffer bp f' cks buf' bp' hbl hr
    unfold chunkLoopF at hr
    by_cases hcond : chunk_size ≤ buffer.length
    · rw [if_pos hcond] at hr
      exact absurd hr (by simp)
    · rw [if_neg hcond] at hr
      simp only [Option.some.injEq, Prod.mk.injEq] at hr
      obtain ⟨-, h2, h3, -⟩ := hr
      subst h2; subst h3
      exact ⟨by simp, hbl⟩
  | succ f ih =>
    intro buffer bp f' cks buf' bp' hbl hr
    unfold chunkLoopF at hr
    by_cases hcond : chunk_size ≤ buffer.length
    · rw [if_pos hcond] at hr
      replace hr : (chunkLoopF f chunk_size overlap
          (buffer.drop (chunk_size - overlap)) []).map
            (fun r => (r.1,
              Chunk.mk (strip (buffer.take chunk_size)) (sortedPages bp)
                :: r.2.1, r.2.2))
          = some (f', cks, buf', bp') := hr
      rw [Option.map_eq_some'] at hr
      obtain ⟨⟨g, cks0, gbuf, gbp⟩, h1, h2⟩ := hr
      simp only [Prod.mk.injEq] at h2
      obtain ⟨-, h2, h3, -⟩ := h2
      subst h2; subst h3
      obtain ⟨ihs, ihbl⟩ := ih _ _ _ _ _ _
        (all_of_sublist (List.drop_sublist _ _) hbl) h1
      refine ⟨?_, ihbl⟩
      intro c hc
      simp only [List.mem_cons] at hc
      rcases hc with hc | hc
      · subst hc
        exact (strip_eq_nil_iff _).mpr
          (all_of_sublist (List.take_sublist _ _) hbl)
      · exact ihs c hc
    · rw [if_neg hcond] at hr
      simp only [Option.some.injEq, Prod.mk.injEq] at hr
      obtain ⟨-, h2, h3, -⟩ := hr
      subst h2; subst h3
      exact ⟨by simp, hbl⟩

/-- If every page is blank and the incoming buffer is blank, every emitted
chunk has empty text and the final buffer is blank. -/
theorem pageLoopF_blank (chunk_size overlap : Nat) :
    ∀ (pages : List (Nat × List Char)) (fuel : Nat) (buffer : List Char)
      (bp : List Nat) f' cks buf' bp',
      (∀ p ∈ pages, p.2.all isSpace = true) →
      buffer.all isSpace = true →
      pageLoopF chunk_size overlap fuel buffer bp pages
        = some (f', cks, buf', bp') →
      (∀ c ∈ cks, c.text = []) ∧ buf'.all isSpace = true := by
  intro pages
  induction pages with
  | nil =>
    intro fuel buffer bp f' cks buf' bp' hp hbl hr
    unfold pageLoopF at hr
    simp only [Option.some.injEq, Prod.mk.injEq] at hr
    obtain ⟨-, h2, h3, -⟩ := hr
    subst h2; subst h3
    exact ⟨by simp, hbl⟩
  | cons page rest ih =>
    intro fuel buffer bp f' cks buf' bp' hp hbl hr
    obtain ⟨page_num, page_text⟩ := page
    have hpt : page_text.all isSpace = true :=
      hp (page_num, page_text) (by simp)
    have hbl1 : (buffer ++ '\n' :: page_text).all isSpace = true := by
      rw [List.all_append, hbl]
      simp only [List.all_cons, hpt]
      rfl
    unfold pageLoopF at hr
    rw [Option.bind_eq_some] at hr
    obtain ⟨⟨f1, cks1, buf1, bp1⟩, h1, h2⟩ := hr
    rw [Option.map_eq_some'] at h2
    obtain ⟨⟨f2, cks2, buf2, bp2⟩, h3, h4⟩ := h2
    simp only [Prod.mk.injEq] at h4
    obtain ⟨-, h4, h5, -⟩ := h4
    subst h4; subst h5
    obtain ⟨hs1, hbl2⟩ := chunkLoopF_blank chunk_size overlap _ _ _ _ _ _ _
      hbl1 h1
    obtain ⟨hs2, hbl3⟩ := ih _ _ _ _ _ _ _
      (fun p hmem => hp p (by simp [hmem])) hbl2 h3
    refine ⟨?_, hbl3⟩
    intro c hc
    simp only [List.mem_append] at hc
    rcases hc with hc | hc
    · exact hs1 c hc
    · exact hs2 c hc

/-- The buffer contents after the page loop appends every page
(`"\n" + page_text` per page) starting from `buffer`. -/
def appendPages (buffer : List Char) : List (Nat × List Char) → List Char
  | [] => buffer
  | (_, page_text) :: rest => appendPages (buffer ++ '\n' :: page_text) rest

/-- The page-number accumulator after recording every page number. -/
def collectPages (bp : List Nat) : List (Nat × List Char) → List Nat
  | [] => bp
  | (page_num, _) :: rest => collectPages (addPage bp page_num) rest

theorem chunkLoopF_small (fuel chunk_size overlap : Nat) (buffer : List Char)
    (bp : List Nat) (h : ¬ chunk_size ≤ buffer.length) :
    chunkLoopF fuel chunk_size overlap buffer bp
      = some (fuel, [], buffer, bp) := by
  unfold chunkLoopF
  rw [if_neg h]

/-- If the buffer can never reach `chunk_size` (total buffered length stays
below it), the page loop emits nothing: it only accumulates text and page
numbers. -/
theorem pageLoopF_no_emit (chunk_size overlap : Nat) :
    ∀ (pages : List (Nat × List Char)) (fuel : Nat) (buffer : List Char)
      (bp : List Nat),
      buffer.length + totalLen pages < chunk_size →
      pageLoopF chunk_size overlap fuel buffer bp pages
        = some (fuel, [], appendPages buffer pages, collectPages bp pages) := by
  intro pages
  induction pages with
  | nil =>
    intro fuel buffer bp h
    rfl
  | cons page rest ih =>
    intro fuel buffer bp h
    obtain ⟨page_num, page_text⟩ := page
    have htot := totalLen_cons page_num page_text rest
    have hcond : ¬ chunk_size ≤ (buffer ++ '\n' :: page_text).length := by
      simp only [List.length_append, List.length_cons]
      omega
    unfold pageLoopF
    rw [chunkLoopF_small _ _ _ _ _ hcond, Option.some_bind]
    show (pageLoopF chunk_size overlap fuel (buffer ++ '\n' :: page_text)
        (addPage bp page_num) rest).map _ = _
    rw [ih fuel (buffer ++ '\n' :: page_text) (addPage bp page_num)
      (by simp only [List.length_append, List.length_cons]; omega),
      Option.map_some']
    rfl

/-- Whitespace-status of the accumulated buffer, in terms of the pages. -/
theorem appendPages_all (q : Char → Bool) (hnl : q '\n' = true) :
    ∀ (pages : List (Nat × List Char)) (buffer : List Char),
      (appendPages buffer pages).all q
        = (buffer.all q && pages.all (fun p => p.2.all q)) := by
  intro pages
  induction pages with
  | nil =>
    intro buffer
    simp [appendPages]
  | cons page rest ih =>
    intro buffer
    obtain ⟨page_num, page_text⟩ := page
    show (appendPages (buffer ++ '\n' :: page_text) rest).all q = _
    rw [ih]
    simp [List.all_append, List.all_cons, hnl, Bool.and_assoc]

/-- Any terminating run over entirely blank pages emits only empty-text
chunks (and its remainder is blank, so no final chunk is added). -/
theorem chunksFromPagesFuel_blank (fuel : Nat)
    (pages : List (Nat × List Char)) (chunk_size overlap : Nat)
    (result : List Chunk)
    (hp : ∀ p ∈ pages, p.2.all isSpace = true)
    (h : chunksFromPagesFuel fuel pages chunk_size overlap = some result) :
    ∀ c ∈ result, c.text = [] := by
  unfold chunksFromPagesFuel at h
  rw [Option.map_eq_some'] at h
  obtain ⟨⟨f', cks, buf', bp'⟩, h1, h2⟩ := h
  obtain ⟨hs, hbl⟩ := pageLoopF_blank chunk_size overlap pages _ _ _ _ _ _ _
    hp (by simp) h1
  subst h2
  have hstrip : strip buf' = [] := (strip_eq_nil_iff _).mpr hbl
  rw [if_neg (by simp [hstrip])]
  exact hs

/-! ### Indexing: `process_and_index_faiss` (upload_ingest_faiss.py)

External effects are modelled explicitly: the embedder's availability is
the boolean `openai_key_set` (`init_embedder` returns `None` exactly when
the key is absent), a mid-stream embedding/indexing exception is the
`embed_error` option (`some msg` = `FAISS.from_texts`/`save_local`
raised `msg`), and the file system is the `FS` record (pending-batch
files, the FAISS directory contents, and the append-only error log). -/

/-- The per-chunk metadata dict `\x7b"source", "pages"\x7d` attached at
indexing time. -/
structure Meta where
  source : String
  pages : List Nat
deriving DecidableEq, Repr

/-- The JSON document written to a pending file. -/
structure PendingBatch where
  filename : String
  file_hash : String
  chunks : List (List Char)
  metadatas : List Meta
deriving DecidableEq, Repr

/-- On-disk state touched by the ingestion pipeline: the pending
directory (filename-keyed batch files), the FAISS store directory
(`none` = never written), and `indexing_errors.log`. -/
structure FS where
  pending : List (String × PendingBatch)
  faiss : Option (List (List Char × Meta))
  log : List String
deriving DecidableEq, Repr

/-- Writing a file: replaces any existing file of the same name. -/
def setEntry (m : List (String × PendingBatch)) (k : String)
    (v : PendingBatch) : List (String × PendingBatch) :=
  (k, v) :: m.filter (fun e => !(e.1 == k))

/-- The dict returned by `process_and_index_faiss`:
status `"indexed"` or `"pending_embeddings"` (the latter with the pending
file path and, on the exception path, the reason string). -/
inductive IndexResult where
  | indexed (chunks : Nat)
  | pending_embeddings (pending_file : String) (chunks : Nat)
      (reason : Option String)
deriving DecidableEq, Repr

/-- `init_embedder`: returns an embedder only when `OPENAI_API_KEY` is
set, else `None`. -/
def init_embedder (openai_key_set : Bool) : Option Unit :=
  if openai_key_set then some () else none

/-- `os.path.join(PENDING_DIR, "pending_" + file_hash + ".json")`. -/
def pendingPath (file_hash : String) : String :=
  "./faiss_store/pending/pending_" ++ file_hash ++ ".json"

def FAISS_DIR : String := "./faiss_store"

/-- `log_error`: append a line to the diagnostic log (the wall-clock
timestamp prefix is omitted from the model). -/
def log_error (fs : FS) (msg : String) : FS :=
  { fs with log := fs.log ++ [msg] }

/-- Write the hash-keyed pending batch file. -/
def writePending (fs : FS) (original_filename file_hash : String)
    (texts : List (List Char)) (metadatas : List Meta) : FS :=
  { fs with pending := (setEntry fs.pending (pendingPath file_hash)
      (PendingBatch.mk original_filename file_hash texts metadatas)) }

/-- `process_and_index_faiss(pdf_path, original_filename, file_hash)`.
`pages` is the output of the external `extract_text_page_by_page`
collaborator applied to `pdf_path`.  Returns the Python result
(`Except.error` = a raised exception) together with the updated file
system. -/
def process_and_index_faiss (pages : List (Nat × List Char))
    (original_filename file_hash : String) (openai_key_set : Bool)
    (embed_error : Option String) (fs : FS) :
    Except String IndexResult × FS :=
  let chunk_objs := chunks_from_pages pages 1200 200
  if chunk_objs.isEmpty then
    (Except.error "No chunks extracted from PDF; check the PDF content / OCR.",
      fs)
  else
    let texts := chunk_objs.map Chunk.text
    let metadatas := chunk_objs.map fun c => Meta.mk original_filename c.pages
    match init_embedder openai_key_set with
    | none =>
      let fs1 := writePending fs original_filename file_hash texts metadatas
      let fs2 := log_error fs1
        ("No embedding key found; saved pending chunks to "
          ++ pendingPath file_hash)
      (Except.ok (IndexResult.pending_embeddings (pendingPath file_hash)
        texts.length none), fs2)
    | some _ =>
      match embed_error with
      | none =>
        -- FAISS.from_texts builds a fresh index from this document's
        -- texts alone, and save_local overwrites FAISS_DIR with it.
        (Except.ok (IndexResult.indexed texts.length),
          { fs with faiss := some (texts.zip metadatas) })
      | some err =>
        let fs1 := writePending fs original_filename file_hash texts metadatas
        let fs2 := log_error fs1 ("Embedding/indexing error: " ++ err)
        (Except.ok (IndexResult.pending_embeddings (pendingPath file_hash)
          texts.length (some err)), fs2)

/-! ### Upload endpoint: `upload_pdf` (upload_ingest_faiss.py)

The upload stream is modelled by the byte counts of successive
`await file.read(1024*1024)` calls; the temp file by a boolean
(present/absent). -/

/-- A Python exception raised inside the endpoint's `try` body. -/
inductive PyExc where
  | httpExc (status : Nat) (detail : String)
  | runtimeError (msg : String)
deriving DecidableEq, Repr

/-- Python `str(e)`: Starlette's `HTTPException.__str__` renders
`"<status>: <detail>"`; `str` of a `RuntimeError` is its message. -/
def strExc : PyExc → String
  | .httpExc status detail => toString status ++ ": " ++ detail
  | .runtimeError msg => msg

/-- The `HTTPException` finally surfaced to the client. -/
structure HTTPError where
  status : Nat
  detail : String
deriving DecidableEq, Repr

/-- The endpoint's success payloads: the background acknowledgment dict
(status `"uploaded"`, hash, message) or the inline pipeline result. -/
inductive UploadResult where
  | uploaded_background (file_hash : String)
  | sync_result (r : IndexResult)
deriving DecidableEq, Repr

def MAX_BYTES : Nat := 200 * 1024 * 1024

/-- `fname.lower()` (ASCII; uploaded filenames here are ASCII). -/
def lower (s : List Char) : List Char := s.map Char.toLower

/-- Python `str.endswith`. -/
def endsWithList (s suf : List Char) : Bool :=
  if suf.length ≤ s.length then s.drop (s.length - suf.length) == suf
  else false

/-- The streaming write loop: add each block's byte count; raise (after
removing the temp file) once the running total exceeds `MAX_BYTES`
(strict `size > MAX_BYTES`). -/
def writeLoop (size : Nat) : List Nat → Except Unit Nat
  | [] => Except.ok size
  | b :: rest =>
    if MAX_BYTES < size + b then Except.error ()
    else writeLoop (size + b) rest

/-- `upload_pdf(file, background)`.  `fname` is the upload's filename,
`blocks` the byte counts of its stream, `pages` the external text
extraction of the stored file, `file_hash` its content hash.  Returns
the endpoint outcome, whether the temp file still exists afterwards, and
the file system. -/
def upload_pdf (fname : String) (blocks : List Nat)
    (pages : List (Nat × List Char)) (file_hash : String)
    (background openai_key_set : Bool) (embed_error : Option String)
    (fs : FS) : Except HTTPError UploadResult × Bool × FS :=
  if ¬ endsWithList (lower fname.toList) ".pdf".toList then
    -- raised before the temp file is created and before the try block;
    -- propagates to the client as-is
    (Except.error (HTTPError.mk 400 "Only PDF files are accepted."), false, fs)
  else
    -- mkstemp creates the temp file; the rest runs inside
    -- `try: ... except Exception as e:`.  An error carries the raised
    -- exception, whether the temp file still exists at the raise point,
    -- and the file system at that moment.
    let tryBody : Except (PyExc × Bool × FS) (UploadResult × FS) :=
      match writeLoop 0 blocks with
      | Except.error _ =>
        -- os.remove(temp_path); raise HTTPException(413, ...)
        Except.error (PyExc.httpExc 413 "File too large.", false, fs)
      | Except.ok _ =>
        if background then
          -- background.add_task(...): the pipeline runs after the response
          Except.ok (UploadResult.uploaded_background file_hash, fs)
        else
          match process_and_index_faiss pages fname file_hash openai_key_set
              embed_error fs with
          | (Except.error msg, fs') =>
            Except.error (PyExc.runtimeError msg, true, fs')
          | (Except.ok r, fs') =>
            Except.ok (UploadResult.sync_result r, fs')
    match tryBody with
    | Except.ok (r, fs') => (Except.ok r, true, fs')
    | Except.error (e, _, fs') =>
      -- except handler: `if os.path.exists(temp_path): os.remove(...)`,
      -- then `raise HTTPException(status_code=500, detail=str(e))` —
      -- note this also catches the HTTPException(413) raised above
      (Except.error (HTTPError.mk 500 (strExc e)), false, fs')

/-! ### Retrieval: `load_retriever` and `answer_question` (rag_chat.py)

The FAISS similarity search and the chat completion are external
collaborators: `docs` stands for `retriever.get_relevant_documents(q)`
and `llm_response` for the completion's content. -/

/-- A retrieved LangChain `Document`'s metadata, as a partial record
(`metadata.get(key, default)` reads an optional field). -/
structure DocMeta where
  source : Option String
  chunk : Option String
  pages : Option (List Nat)
deriving DecidableEq, Repr

structure Document where
  page_content : List Char
  metadata : DocMeta
deriving DecidableEq, Repr

/-- One element of the returned source list. -/
structure SourceRec where
  source : String
  chunk : String
  snippet : List Char
deriving DecidableEq, Repr

/-- `load_retriever()`: `None` when the FAISS directory is missing;
raises `RuntimeError` when `OPENAI_API_KEY` is unset. -/
def load_retriever (index_dir_exists openai_key_set : Bool) :
    Except String (Option Unit) :=
  if ¬ index_dir_exists then Except.ok none
  else if ¬ openai_key_set then Except.error "OPENAI_API_KEY not set"
  else Except.ok (some ())

/-- The filter in the retrieval loop: `if len(text) < 80: continue`. -/
def survives (d : Document) : Bool :=
  if (strip d.page_content).length < 80 then false else true

/-- The source record built for a surviving match. -/
def mkSourceRec (d : Document) : SourceRec :=
  SourceRec.mk (d.metadata.source.getD "unknown") (d.metadata.chunk.getD "")
    ((strip d.page_content).take 300)

/-- Python `sep.join(parts)`. -/
def joinSep (sep : List Char) : List (List Char) → List Char
  | [] => []
  | [x] => x
  | x :: y :: rest => x ++ sep ++ joinSep sep (y :: rest)

def CONTEXT_SEP : List Char := "\n\n---\n\n".toList

/-- `context_text = "\n\n---\n\n".join(context_chunks)`. -/
def context_text (docs : List Document) : List Char :=
  joinSep CONTEXT_SEP ((docs.filter survives).map fun d => strip d.page_content)

/-- `answer_question(question, chat_history)`.  The single pass that
builds `context_chunks` and `sources` with `continue` is a filter
followed by two maps.  The prompt is built from `context_text docs` and
handed to the chat model; `llm_response` is that call's output and the
returned answer is `response.content.strip()`. -/
def answer_question (index_dir_exists openai_key_set : Bool)
    (docs : List Document) (llm_response : List Char) :
    Except String (List Char × List SourceRec) :=
  match load_retriever index_dir_exists openai_key_set with
  | Except.error e => Except.error e
  | Except.ok none => Except.ok ("No documents indexed yet.".toList, [])
  | Except.ok (some _) =>
    if docs.isEmpty then
      Except.ok ("No relevant information found in the documents.".toList, [])
    else
      let surviving := docs.filter survives
      if surviving.isEmpty then
        Except.ok ("Not enough meaningful context to answer.".toList, [])
      else
        Except.ok (strip llm_response, surviving.map mkSourceRec)

/-- `sub` occurs contiguously inside `big`. -/
def containsSub (big sub : List Char) : Prop :=
  ∃ s t, big = s ++ sub ++ t

theorem containsSub_joinSep (sep : List Char) :
    ∀ (l : List (List Char)) (x : List Char), x ∈ l →
      containsSub (joinSep sep l) x := by
  intro l
  induction l with
  | nil =>
    intro x hx
    simp at hx
  | cons a rest ih =>
    intro x hx
    cases rest with
    | nil =>
      simp only [List.mem_singleton] at hx
      subst hx
      exact ⟨[], [], by simp [joinSep]⟩
    | cons b rest2 =>
      simp only [List.mem_cons] at hx
      rcases hx with hx | hx
      · subst hx
        exact ⟨[], sep ++ joinSep sep (b :: rest2), by simp [joinSep]⟩
      · obtain ⟨s, t, hst⟩ := ih x (by simpa using hx)
        exact ⟨a ++ sep ++ s, t, by simp [joinSep, hst]⟩

/-! ### Supporting lemmas for the indexing claims -/

theorem lookup_setEntry (m : List (String × PendingBatch)) (k : String)
    (v : PendingBatch) : (setEntry m k v).lookup k = some v := by
  unfold setEntry
  simp [List.lookup]

theorem isEmpty_false_of_ne_nil {α : Type} {l : List α} (h : l ≠ []) :
    l.isEmpty = false := by
  cases hl : l with
  | nil => exact absurd hl h
  | cons a t => rfl

/-- The embedder-unavailable branch of `process_and_index_faiss`, as one
equation. -/
theorem process_pending_eq (pages : List (Nat × List Char))
    (original_filename file_hash : String) (embed_error : Option String)
    (fs : FS) (hne : chunks_from_pages pages 1200 200 ≠ []) :
    process_and_index_faiss pages original_filename file_hash false
        embed_error fs
      = (Except.ok (IndexResult.pending_embeddings (pendingPath file_hash)
          ((chunks_from_pages pages 1200 200).map Chunk.text).length none),
        log_error
          (writePending fs original_filename file_hash
            ((chunks_from_pages pages 1200 200).map Chunk.text)
            ((chunks_from_pages pages 1200 200).map fun c =>
              Meta.mk original_filename c.pages))
          ("No embedding key found; saved pending chunks to "
            ++ pendingPath file_hash)) := by
  have hie := isEmpty_false_of_ne_nil hne
  simp only [process_and_index_faiss, hie, init_embedder, Bool.false_eq_true,
    if_false]

/-- The successful-indexing branch of `process_and_index_faiss`, as one
equation. -/
theorem process_indexed_eq (pages : List (Nat × List Char))
    (original_filename file_hash : String) (fs : FS)
    (hne : chunks_from_pages pages 1200 200 ≠ []) :
    process_and_index_faiss pages original_filename file_hash true none fs
      = (Except.ok (IndexResult.indexed
          ((chunks_from_pages pages 1200 200).map Chunk.text).length),
        { fs with faiss := (some
          (((chunks_from_pages pages 1200 200).map Chunk.text).zip
            ((chunks_from_pages pages 1200 200).map fun c =>
              Meta.mk original_filename c.pages))) }) := by
  have hie := isEmpty_false_of_ne_nil hne
  simp only [process_and_index_faiss, hie, init_embedder, Bool.false_eq_true,
    if_false, if_true]

/-! ### The claims -/

/-- Claim C1: for every chunk-size/overlap configuration with
`overlap < chunk_size` and every finite page sequence, `chunks_from_pages`
terminates (the while loop finishes within `totalLen pages` iterations,
so the fuel-indexed run returns a value), and every emitted chunk's text
has length at most `chunk_size` — in fact this holds for the final
remainder chunk as well. -/
theorem claim1_chunking_terminates_and_bounded
    (pages : List (Nat × List Char)) (chunk_size overlap : Nat)
    (hov : overlap < chunk_size) :
    chunksFromPagesFuel (totalLen pages) pages chunk_size overlap
      = some (chunks_from_pages pages chunk_size overlap) ∧
    ∀ c ∈ chunks_from_pages pages chunk_size overlap,
      c.text.length ≤ chunk_size :=
  ⟨chunksFromPagesFuel_totalLen_eq pages chunk_size overlap hov,
   chunks_from_pages_text_le pages chunk_size overlap hov⟩

/-- Witness for C1 at a concrete configuration and page sequence. -/
theorem claim1_witness :
    (200 : Nat) < 1200 ∧
    (chunksFromPagesFuel (totalLen [(1, "hello".toList)])
        [(1, "hello".toList)] 1200 200
      = some (chunks_from_pages [(1, "hello".toList)] 1200 200) ∧
    ∀ c ∈ chunks_from_pages [(1, "hello".toList)] 1200 200,
      c.text.length ≤ 1200) :=
  ⟨by decide,
   claim1_chunking_terminates_and_bounded [(1, "hello".toList)] 1200 200
     (by decide)⟩

/-- Claim C2: for every non-empty chunk list, if the embedding capability
is unavailable (`init_embedder` yields none), `process_and_index_faiss`
returns a pending status without raising, and the pending-batch file keyed
by the document's content hash now holds the filename, hash, ordered chunk
texts and ordered metadata — overwriting any prior batch at that key — and
no index write occurs. -/
theorem claim2_pending_batch_on_unavailable
    (pages : List (Nat × List Char)) (original_filename file_hash : String)
    (embed_error : Option String) (fs : FS)
    (hne : chunks_from_pages pages 1200 200 ≠ []) :
    ∃ fs',
      process_and_index_faiss pages original_filename file_hash false
          embed_error fs
        = (Except.ok (IndexResult.pending_embeddings (pendingPath file_hash)
            ((chunks_from_pages pages 1200 200).map Chunk.text).length none),
          fs') ∧
      fs'.pending.lookup (pendingPath file_hash)
        = some (PendingBatch.mk original_filename file_hash
            ((chunks_from_pages pages 1200 200).map Chunk.text)
            ((chunks_from_pages pages 1200 200).map fun c =>
              Meta.mk original_filename c.pages)) ∧
      fs'.faiss = fs.faiss := by
  refine ⟨_, process_pending_eq pages original_filename file_hash
    embed_error fs hne, ?_, rfl⟩
  exact lookup_setEntry _ _ _

/-- Witness for C2: a concrete document whose hash key already holds an
older pending batch, which the new write replaces. -/
theorem claim2_witness :
    chunks_from_pages [(1, "hello".toList)] 1200 200 ≠ [] ∧
    (∃ fs',
      process_and_index_faiss [(1, "hello".toList)] "doc.pdf" "abc" false
          none
          (FS.mk [(pendingPath "abc", PendingBatch.mk "prior.pdf" "abc" [] [])]
            none [])
        = (Except.ok (IndexResult.pending_embeddings (pendingPath "abc")
            ((chunks_from_pages [(1, "hello".toList)] 1200 200).map
              Chunk.text).length none),
          fs') ∧
      fs'.pending.lookup (pendingPath "abc")
        = some (PendingBatch.mk "doc.pdf" "abc"
            ((chunks_from_pages [(1, "hello".toList)] 1200 200).map Chunk.text)
            ((chunks_from_pages [(1, "hello".toList)] 1200 200).map fun c =>
              Meta.mk "doc.pdf" c.pages)) ∧
      fs'.faiss = (FS.mk
        [(pendingPath "abc", PendingBatch.mk "prior.pdf" "abc" [] [])]
        none []).faiss) :=
  ⟨by decide,
   claim2_pending_batch_on_unavailable [(1, "hello".toList)] "doc.pdf" "abc"
     none _ (by decide)⟩

/-- Claim C9: when chunking yields zero chunks, `process_and_index_faiss`
raises (returns the `RuntimeError` to its caller) and leaves the file
system untouched: no pending batch is written and no index write occurs. -/
theorem claim9_no_chunks_fatal (pages : List (Nat × List Char))
    (original_filename file_hash : String) (openai_key_set : Bool)
    (embed_error : Option String) (fs : FS)
    (hempty : chunks_from_pages pages 1200 200 = []) :
    process_and_index_faiss pages original_filename file_hash openai_key_set
        embed_error fs
      = (Except.error
          "No chunks extracted from PDF; check the PDF content / OCR.", fs) := by
  simp only [process_and_index_faiss, hempty, List.isEmpty_nil, if_true]

/-- Witness for C9: an empty page sequence extracts zero chunks. -/
theorem claim9_witness :
    chunks_from_pages [] 1200 200 = [] ∧
    process_and_index_faiss [] "doc.pdf" "abc" true none (FS.mk [] none [])
      = (Except.error
          "No chunks extracted from PDF; check the PDF content / OCR.",
        FS.mk [] none []) :=
  ⟨by decide,
   claim9_no_chunks_fatal [] "doc.pdf" "abc" true none _ (by decide)⟩

/-- Counterexample to claim C6 as stated: a successful ingestion does not
merge into the existing index.  Starting from a file system whose FAISS
store holds a prior document's entry, ingesting a new document leaves an
index containing only the new document's chunk — the prior entry is gone. -/
theorem claim6_counterexample :
    (['x'], Meta.mk "old.pdf" [1]) ∈
      (FS.mk [] (some [(['x'], Meta.mk "old.pdf" [1])]) []).faiss.getD [] ∧
    ((process_and_index_faiss [(1, "hello".toList)] "new.pdf" "h2" true none
        (FS.mk [] (some [(['x'], Meta.mk "old.pdf" [1])]) [])).2.faiss.getD []
      = [("hello".toList, Meta.mk "new.pdf" [1])]) ∧
    (['x'], Meta.mk "old.pdf" [1]) ∉
      ((process_and_index_faiss [(1, "hello".toList)] "new.pdf" "h2" true none
        (FS.mk [] (some [(['x'], Meta.mk "old.pdf" [1])]) [])).2.faiss.getD [])
    := by decide

/-- Claim C6 (amended): on every successful ingestion the index written by
`process_and_index_faiss` is rebuilt from scratch and the on-disk store
overwritten: afterwards it covers exactly the newly ingested document's
chunks (texts zipped with their metadata), irrespective of its previous
contents. -/
theorem claim6_index_replaced (pages : List (Nat × List Char))
    (original_filename file_hash : String) (fs : FS)
    (hne : chunks_from_pages pages 1200 200 ≠ []) :
    (process_and_index_faiss pages original_filename file_hash true none
        fs).2.faiss
      = some (((chunks_from_pages pages 1200 200).map Chunk.text).zip
          ((chunks_from_pages pages 1200 200).map fun c =>
            Meta.mk original_filename c.pages)) := by
  rw [process_indexed_eq pages original_filename file_hash fs hne]

/-- Witness for the amended C6. -/
theorem claim6_witness :
    chunks_from_pages [(1, "hello".toList)] 1200 200 ≠ [] ∧
    (process_and_index_faiss [(1, "hello".toList)] "new.pdf" "h2" true none
        (FS.mk [] (some [(['x'], Meta.mk "old.pdf" [1])]) [])).2.faiss
      = some (((chunks_from_pages [(1, "hello".toList)] 1200 200).map
          Chunk.text).zip
          ((chunks_from_pages [(1, "hello".toList)] 1200 200).map fun c =>
            Meta.mk "new.pdf" c.pages)) :=
  ⟨by decide,
   claim6_index_replaced [(1, "hello".toList)] "new.pdf" "h2" _ (by decide)⟩

/-- Counterexample to claim C3 as stated: a single page long enough to
span several chunks (here chunk_size 4, overlap 1 — any configuration
with a page spanning more than one chunk behaves alike) shows that every
chunk after the first one cut from the same buffered text carries an
**empty** page list — `buffer_pages` is reset to the empty set after each
emission, and the final remainder chunk inherits that empty set too. -/
theorem claim3_counterexample :
    (chunks_from_pages [(1, List.replicate 7 'a')] 4 1).map Chunk.pages
      = [[1], [], []] ∧
    ¬ ∀ c ∈ chunks_from_pages [(1, List.replicate 7 'a')] 4 1,
        c.pages ≠ [] := by decide

/-- Claim C3 (amended): every chunk emitted by `chunks_from_pages` carries
a strictly ascending (sorted, duplicate-free) list of page numbers, but
that list may be empty: after each emission the page set is reset, so
further chunks cut from text buffered by already-consumed pages carry no
page attribution. -/
theorem claim3_pages_sorted_ascending (pages : List (Nat × List Char))
    (chunk_size overlap : Nat) (c : Chunk)
    (hc : c ∈ chunks_from_pages pages chunk_size overlap) :
    List.Sorted (· < ·) c.pages := by
  cases h : chunksFromPagesFuel (totalLen pages) pages chunk_size overlap with
  | none =>
    unfold chunks_from_pages at hc
    rw [h] at hc
    simp at hc
  | some result =>
    unfold chunks_from_pages at hc
    rw [h] at hc
    exact chunksFromPagesFuel_pages_sorted _ _ _ _ _ h c (by simpa using hc)

/-- Witness for the amended C3. -/
theorem claim3_witness :
    Chunk.mk "hello".toList [1] ∈ chunks_from_pages [(1, "hello".toList)]
      1200 200 ∧
    List.Sorted (· < ·) (Chunk.mk "hello".toList [1]).pages :=
  ⟨by decide,
   claim3_pages_sorted_ascending [(1, "hello".toList)] 1200 200 _ (by decide)⟩

/-- Counterexample to claim C7 as stated: once enough whitespace
accumulates for the buffer to reach the chunk size (here three spaces
plus the separator at chunk_size 4; 1200 whitespace characters at the
default configuration behave alike), the while loop unconditionally
emits a chunk with empty stripped text — the chunk count is 1, not 0. -/
theorem claim7_counterexample :
    (∀ p ∈ [(1, [' ', ' ', ' '])], p.2.all isSpace = true) ∧
    chunks_from_pages [(1, [' ', ' ', ' '])] 4 1 = [Chunk.mk [] [1]] ∧
    (chunks_from_pages [(1, [' ', ' ', ' '])] 4 1).length ≠ 0 := by decide

/-- Claim C7 (amended): for an entirely blank page sequence every chunk
`chunks_from_pages` emits has empty text, and it emits zero chunks
provided the accumulated buffer (total page length plus one separator
character per page) stays below the chunk size — only then is the
unconditional while-loop emission never reached. -/
theorem claim7_blank_pages (pages : List (Nat × List Char))
    (chunk_size overlap : Nat)
    (hblank : ∀ p ∈ pages, p.2.all isSpace = true) :
    (∀ c ∈ chunks_from_pages pages chunk_size overlap, c.text = []) ∧
    (totalLen pages < chunk_size →
      chunks_from_pages pages chunk_size overlap = []) := by
  constructor
  · intro c hc
    cases h : chunksFromPagesFuel (totalLen pages) pages chunk_size overlap
      with
    | none =>
      unfold chunks_from_pages at hc
      rw [h] at hc
      simp at hc
    | some result =>
      unfold chunks_from_pages at hc
      rw [h] at hc
      exact chunksFromPagesFuel_blank _ _ _ _ _ hblank h c (by simpa using hc)
  · intro hsmall
    have hstrip : strip (appendPages [] pages) = [] := by
      rw [strip_eq_nil_iff, appendPages_all isSpace (by decide)]
      simp only [List.all_nil, Bool.true_and]
      rw [List.all_eq_true]
      exact hblank
    have heq : chunksFromPagesFuel (totalLen pages) pages chunk_size overlap
        = some [] := by
      unfold chunksFromPagesFuel
      rw [pageLoopF_no_emit chunk_size overlap pages (totalLen pages) [] []
        (by simpa using hsmall), Option.map_some']
      dsimp only
      rw [if_neg (by simp [hstrip])]
    unfold chunks_from_pages
    rw [heq]
    rfl

/-- Witness for the amended C7. -/
theorem claim7_witness :
    (∀ p ∈ [(1, [' '])], p.2.all isSpace = true) ∧
    totalLen [(1, [' '])] < 1200 ∧
    chunks_from_pages [(1, [' '])] 1200 200 = [] :=
  ⟨by decide, by decide,
   (claim7_blank_pages [(1, [' '])] 1200 200 (by decide)).2 (by decide)⟩

/-- Counterexample to claim C8 as stated: a non-blank page sequence whose
concatenated page text has length L = 4 below the chunk size 5 still
yields two chunks, because the buffer additionally holds the
one-character separator prepended per page, pushing it to the chunk size
(the same happens at the default configuration, e.g. with 1199 text
characters over two pages). -/
theorem claim8_counterexample :
    (([(1, "ab".toList), (2, "cd".toList)].map
        (fun p => p.2.length)).sum = 4 ∧
      (4 : Nat) < 5 ∧
      ¬ ∀ p ∈ [(1, "ab".toList), (2, "cd".toList)],
          p.2.all isSpace = true) ∧
    (chunks_from_pages [(1, "ab".toList), (2, "cd".toList)] 5 1).length = 2
    := by decide

/-- Claim C8 (amended): for every non-blank page sequence whose total
buffered length — the sum of the page text lengths plus the one-character
separator prepended per page — is below the chunk size,
`chunks_from_pages` yields exactly one chunk, whose text is the trimmed
concatenation of the pages' texts (each page prefixed by the newline
separator) and whose page list is the sorted list of all page numbers. -/
theorem claim8_single_chunk (pages : List (Nat × List Char))
    (chunk_size overlap : Nat) (h1 : totalLen pages < chunk_size)
    (h2 : ¬ ∀ p ∈ pages, p.2.all isSpace = true) :
    chunks_from_pages pages chunk_size overlap
      = [Chunk.mk (strip (appendPages [] pages))
          (sortedPages (collectPages [] pages))] := by
  have hstrip : strip (appendPages [] pages) ≠ [] := by
    intro hs
    rw [strip_eq_nil_iff, appendPages_all isSpace (by decide)] at hs
    simp only [List.all_nil, Bool.true_and] at hs
    rw [List.all_eq_true] at hs
    exact h2 hs
  have heq : chunksFromPagesFuel (totalLen pages) pages chunk_size overlap
      = some [Chunk.mk (strip (appendPages [] pages))
          (sortedPages (collectPages [] pages))] := by
    unfold chunksFromPagesFuel
    rw [pageLoopF_no_emit chunk_size overlap pages (totalLen pages) [] []
      (by simpa using h1), Option.map_some']
    dsimp only
    rw [if_pos hstrip]
    rfl
  unfold chunks_from_pages
  rw [heq]
  rfl

/-- Witness for the amended C8. -/
theorem claim8_witness :
    totalLen [(1, "ab".toList)] < 1200 ∧
    ¬ (∀ p ∈ [(1, "ab".toList)], p.2.all isSpace = true) ∧
    chunks_from_pages [(1, "ab".toList)] 1200 200
      = [Chunk.mk (strip (appendPages [] [(1, "ab".toList)]))
          (sortedPages (collectPages [] [(1, "ab".toList)]))] :=
  ⟨by decide, by decide,
   claim8_single_chunk [(1, "ab".toList)] 1200 200 (by decide) (by decide)⟩

/-- Claim C4 (code finding): a 201 MiB upload does abort the transfer and
the partial temp file is deleted (no residual temp file remains), but the
size-limit error does **not** reach the client as a distinct client
error: the `HTTPException(413, "File too large.")` raised inside the try
block is caught by the generic `except Exception` handler, which
re-raises `HTTPException(500, str(e))` — the caller sees the generic
server error 500 with detail "413: File too large.". -/
theorem claim4_oversize_wrapped_into_500 :
    upload_pdf "big.pdf" (List.replicate 201 (1024 * 1024)) [] "h" false
        false none (FS.mk [] none [])
      = (Except.error (HTTPError.mk 500 "413: File too large."), false,
        FS.mk [] none []) := by decide

/-- Counterexample to claim C5 as stated: for a document indexed by this
pipeline (its metadata carries `source` and `pages`, no `chunk` key), the
returned source record's page/chunk reference is the **empty string** —
`answer_question` reads `metadata.get("chunk", "")` while ingestion
stores the page numbers under the key `"pages"`, so the record carries no
page/chunk reference at all. -/
theorem claim5_counterexample :
    (DocMeta.mk (some "a.pdf") none (some [1])).pages = some [1] ∧
    answer_question true true
        [Document.mk (List.replicate 80 'a')
          (DocMeta.mk (some "a.pdf") none (some [1]))] []
      = Except.ok ([], [SourceRec.mk "a.pdf" "" (List.replicate 80 'a')]) ∧
    (SourceRec.mk "a.pdf" "" (List.replicate 80 'a')).chunk = "" := by decide

/-- Claim C5 (amended): with a loadable index, the returned source list
corresponds exactly, in order, to the retrieved chunks that survived the
minimum-length filter (trimmed length at least 80): one record per
surviving match, holding the source filename (default "unknown"), the
chunk-reference field read from the metadata key "chunk" (empty for
documents indexed by this pipeline, which stores page numbers under
"pages" instead), and a snippet equal to the first 300 characters of the
chunk's trimmed text; every cited chunk's text occurs in the assembled
context block. -/
theorem claim5_sources_correspond (docs : List Document)
    (llm_response : List Char) (h1 : docs ≠ [])
    (h2 : docs.filter survives ≠ []) :
    answer_question true true docs llm_response
      = Except.ok (strip llm_response,
          (docs.filter survives).map mkSourceRec) ∧
    ∀ d ∈ docs.filter survives,
      (mkSourceRec d).snippet = (strip d.page_content).take 300 ∧
      containsSub (context_text docs) (strip d.page_content) := by
  constructor
  · have hie1 := isEmpty_false_of_ne_nil h1
    have hie2 := isEmpty_false_of_ne_nil h2
    simp [answer_question, load_retriever, hie1, hie2]
  · intro d hd
    refine ⟨rfl, ?_⟩
    exact containsSub_joinSep CONTEXT_SEP _ _
      (List.mem_map_of_mem _ hd)

/-- Witness for the amended C5. -/
theorem claim5_witness :
    ([Document.mk (List.replicate 80 'a')
        (DocMeta.mk (some "a.pdf") none (some [1]))] : List Document) ≠ [] ∧
    ([Document.mk (List.replicate 80 'a')
        (DocMeta.mk (some "a.pdf") none (some [1]))] : List Document).filter
        survives ≠ [] ∧
    (answer_question true true
        [Document.mk (List.replicate 80 'a')
          (DocMeta.mk (some "a.pdf") none (some [1]))] []
      = Except.ok (strip [],
          (([Document.mk (List.replicate 80 'a')
              (DocMeta.mk (some "a.pdf") none (some [1]))] :
            List Document).filter survives).map mkSourceRec) ∧
    ∀ d ∈ ([Document.mk (List.replicate 80 'a')
        (DocMeta.mk (some "a.pdf") none (some [1]))] :
        List Document).filter survives,
      (mkSourceRec d).snippet = (strip d.page_content).take 300 ∧
      containsSub (context_text
        [Document.mk (List.replicate 80 'a')
          (DocMeta.mk (some "a.pdf") none (some [1]))])
        (strip d.page_content)) :=
  ⟨by decide, by decide,
   claim5_sources_correspond
     [Document.mk (List.replicate 80 'a')
       (DocMeta.mk (some "a.pdf") none (some [1]))] []
     (by decide) (by decide)⟩

/-- Claim C10: if the index directory exists on disk but OPENAI_API_KEY
is not set, `answer_question` propagates `load_retriever`'s RuntimeError
instead of returning any of the fixed informative results; only when the
index directory does not exist does it return the fixed
"No documents indexed yet." result with empty sources. -/
theorem claim10_missing_key_raises :
    (∀ (docs : List Document) (llm_response : List Char),
      answer_question true false docs llm_response
        = Except.error "OPENAI_API_KEY not set") ∧
    (∀ (openai_key_set : Bool) (docs : List Document)
        (llm_response : List Char),
      answer_question false openai_key_set docs llm_response
        = Except.ok ("No documents indexed yet.".toList, [])) := by
  constructor
  · intro docs llm_response
    rfl
  · intro openai_key_set docs llm_response
    cases openai_key_set <;> rfl

end AthenaAI
